import Mathlib

/-!
Verification of the keyword-labelling invoice pipeline
(`src/categorize_invoices.py`).

The core under study is three pure functions plus record assembly:

* `categorize_invoice(text, categories)` — for each `(name, keywords)` pair
  of the category table, append `name` to the matched list if any keyword
  satisfies `keyword.lower() in text`, breaking out of the keyword loop at
  the first match; return `["Uncategorized"]` when the matched list is empty.
* `filter_description(text)` — split on newlines, lowercase-and-strip each
  line, drop it when empty or when any of thirteen boilerplate regexes
  matches (via `re.search`), and join the surviving lines — stripped but in
  their original case — with single spaces.
* `load_categories` / `process_invoices` — load the JSON table (no
  validation whatsoever) and map the classify/filter pair over documents.

Strings are modelled as `List Char` internally (Python's `str` operations
become list functions), converted at the `String` API boundary.  The
embedding targets ASCII text: `str.lower` becomes `Char.toLower`
(ASCII case-folding) and Python's `\s` class becomes the six ASCII
whitespace characters.
-/

/-- Python's `\s` character class restricted to ASCII: space (32), tab (9),
newline (10), carriage return (13), vertical tab (11), form feed (12). -/
def wsChar (c : Char) : Bool :=
  c.toNat == 32 || c.toNat == 9 || c.toNat == 10 || c.toNat == 13 ||
    c.toNat == 11 || c.toNat == 12

/-- Python's `\d` character class restricted to ASCII: `'0'` (48) to `'9'` (57). -/
def digitChar (c : Char) : Bool :=
  48 ≤ c.toNat && c.toNat ≤ 57

/-- `str.lower` on ASCII text, character-wise. -/
def pyLower (s : List Char) : List Char :=
  s.map Char.toLower

/-- `str.strip()`: remove leading and trailing whitespace. -/
def pyStrip (s : List Char) : List Char :=
  ((s.dropWhile wsChar).reverse.dropWhile wsChar).reverse

/-- `str.split('\n')`: split at every newline, keeping empty pieces
(so `"" ↦ [""]` and a trailing newline yields a trailing empty piece),
exactly as Python's `split` with an explicit separator. -/
def splitLines : List Char → List (List Char)
  | [] => [[]]
  | c :: rest =>
    if c == '\n' then [] :: splitLines rest
    else
      match splitLines rest with
      | [] => [[c]]
      | l :: ls => (c :: l) :: ls

/-- `sep.join` with a single-space separator (`' '.join(lines)`). -/
def joinSp : List (List Char) → List Char
  | [] => []
  | [l] => l
  | l :: ls => l ++ ' ' :: joinSp ls

/-- Does `pre` occur as a prefix of `l`?  If so return the remainder. -/
def dropPrefixL : List Char → List Char → Option (List Char)
  | [], l => some l
  | _ :: _, [] => none
  | a :: as, b :: bs => if a == b then dropPrefixL as bs else none

/-- `l` starts with `pre`. -/
def startsWithL (pre l : List Char) : Bool :=
  (dropPrefixL pre l).isSome

/-- Try the prefix predicate `p` at every start position of `l`
(the search strategy of `re.search` and of Python's `in`). -/
def searchAt (p : List Char → Bool) : List Char → Bool
  | [] => p []
  | l@(_ :: t) => p l || searchAt p t

/-- Python's substring test `tok in l` (also `re.search` of a literal
pattern): `tok` occurs contiguously somewhere in `l`. -/
def containsSub (tok : List Char) (l : List Char) : Bool :=
  searchAt (startsWithL tok) l

/-!  ## The classifier (`categorize_invoice`, source lines 86–96) -/

/-- A category table: iteration-ordered `(category name, keywords)` pairs,
the shallow embedding of the Python `dict` the JSON config parses to. -/
abbrev CategoryTable := List (String × List String)

/-- The inner keyword loop of `categorize_invoice`: scan the keywords in
order and stop at the first `keyword.lower() in text` hit (`break`),
returning the keyword that matched. -/
def firstMatchingKeyword (text : List Char) : List String → Option String
  | [] => none
  | kw :: rest =>
    if containsSub (pyLower kw.data) text then some kw
    else firstMatchingKeyword text rest

/-- The outer category loop of `categorize_invoice`: append the category
name whenever its keyword scan hit. -/
def matchedCategories (text : List Char) : CategoryTable → List String
  | [] => []
  | (name, kws) :: rest =>
    match firstMatchingKeyword text kws with
    | some _ => name :: matchedCategories text rest
    | none => matchedCategories text rest

/-- `categorize_invoice(text, categories)`: the matched category names in
table order, or `["Uncategorized"]` when nothing matched
(`return matched_categories if matched_categories else ["Uncategorized"]`). -/
def categorize_invoice (text : String) (categories : CategoryTable) : List String :=
  let matched := matchedCategories text.data categories
  if matched.isEmpty then ["Uncategorized"] else matched

/-- One category row matches when some keyword, lowercased, occurs in the
text — the loop-free description of the inner loop's outcome. -/
def catMatches (text : List Char) (ck : String × List String) : Bool :=
  ck.2.any fun kw => containsSub (pyLower kw.data) text

/-!  ## The description filter (`filter_description`, source lines 98–135) -/

/-- `re.search` of `<lit>\s*(alt₁|…|altₙ)` tried at one start position: the
literal, then a run of whitespace, then one of the alternatives.  None of
the alternatives used below starts with a whitespace character, so the
backtracking `\s*` is equivalent to consuming the maximal whitespace run. -/
def litWsAltAt (lit : List Char) (alts : List (List Char)) (l : List Char) : Bool :=
  match dropPrefixL lit l with
  | none => false
  | some r => alts.any fun a => startsWithL a (r.dropWhile wsChar)

/-- The pattern `\d{4}-\d{2}-\d{2}` tried at one start position. -/
def isoAt : List Char → Bool
  | a :: b :: c :: d :: e :: f :: g :: h :: i :: j :: _ =>
    digitChar a && digitChar b && digitChar c && digitChar d && e == '-' &&
      digitChar f && digitChar g && h == '-' && digitChar i && digitChar j
  | _ => false

/-- `re.search` of the ISO date pattern `\d{4}-\d{2}-\d{2}`. -/
def containsIsoDate (l : List Char) : Bool :=
  searchAt isoAt l

/-- An exact ten-character `YYYY-MM-DD` token.  `containsIsoDate l` holds
exactly when such a token occurs contiguously in `l` (proved below); the
token form makes the occurrence robust under lowercasing and stripping. -/
def isoTok : List Char → Bool
  | [a, b, c, d, e, f, g, h, i, j] =>
    digitChar a && digitChar b && digitChar c && digitChar d && e == '-' &&
      digitChar f && digitChar g && h == '-' && digitChar i && digitChar j
  | _ => false

/-- The `skip_patterns` list (source lines 104–118), each regex embedded as
its `re.search` denotation on a newline-free string.  The last entry models
`^\s*$`, which on a string without newlines matches exactly when every
character is whitespace. -/
def skipPatterns : List (List Char → Bool) :=
  [ searchAt (litWsAltAt "invoice".data ["no".data, "number".data, "#".data]),
    containsSub "date".data,
    searchAt (litWsAltAt "tax".data ["id".data]),
    containsSub "iban".data,
    containsSub "swift".data,
    searchAt (litWsAltAt "bill".data ["to".data]),
    searchAt (litWsAltAt "ship".data ["to".data]),
    searchAt (litWsAltAt "payment".data ["terms".data]),
    searchAt (litWsAltAt "due".data ["date".data]),
    searchAt (litWsAltAt "customer".data ["no".data, "id".data]),
    searchAt (litWsAltAt "order".data ["no".data, "number".data]),
    containsIsoDate,
    fun l => l.all wsChar ]

/-- The inner pattern loop: skip the line if any pattern fires (the `break`
is observationally `List.any`). -/
def shouldSkip (lineLower : List Char) : Bool :=
  skipPatterns.any fun p => p lineLower

/-- The per-line body of `filter_description`'s loop: `line.lower().strip()`,
drop the line when empty or matched by a skip pattern, otherwise retain
`line.strip()` (original case). -/
def retainLine (line : List Char) : Option (List Char) :=
  let lineLower := pyStrip (pyLower line)
  if lineLower.isEmpty then none
  else if shouldSkip lineLower then none
  else some (pyStrip line)

/-- `filter_description(text)`: split on newlines, drop empty and
boilerplate lines, join what remains with single spaces. -/
def filter_description (text : String) : String :=
  String.mk (joinSp ((splitLines text.data).filterMap retainLine))

/-!  ## Loading and the pipeline (`load_categories` / `process_invoices`,
source lines 71–74 and 151–182) -/

/-- Parsed JSON values, the possible results of `json.load`. -/
inductive JVal where
  | null : JVal
  | bool (b : Bool) : JVal
  | num (n : Int) : JVal
  | str (s : String) : JVal
  | arr (elems : List JVal) : JVal
  | obj (fields : List (String × JVal)) : JVal

/-- Failure of `load_categories`: the configuration file is missing or not
valid JSON, in which case `open`/`json.load` raise and the exception
propagates (there is no dedicated error type in the source). -/
inductive LoadError where
  | loadFailure : LoadError
deriving DecidableEq

/-- `load_categories` (source lines 71–74): `json.load` the configuration
source and return the parsed value unchanged.  A `none` source models a
missing or unparseable file (the raised exception propagates); any parsed
value — an empty object, an object mapping a category to a non-list —
is returned as-is: the function performs no structural validation. -/
def load_categories (source : Option JVal) : Except LoadError JVal :=
  match source with
  | none => .error .loadFailure
  | some j => .ok j

/-- The per-document output record assembled by `process_invoices`
(source lines 176–181). -/
structure Record where
  filename : String
  categories : List String
  description : String
  full_text : String
deriving DecidableEq

/-- Record assembly for one document (source lines 167–181): classify the
text, filter the description, package the four fields. -/
def assembleRecord (filename : String) (text : String) (table : CategoryTable) : Record :=
  { filename := filename
    categories := categorize_invoice text table
    description := filter_description text
    full_text := text }

/-- View of a parsed JSON value as a category table.  Python passes the
parsed `dict` straight to `categorize_invoice`, so on the documented shape —
an object mapping names to arrays of strings — this is the identity view;
entries of any other shape would only fail later, inside the per-keyword
loop, and are read as empty here. -/
def decodeTable : JVal → CategoryTable
  | .obj fields =>
    fields.map fun p =>
      (p.1,
        match p.2 with
        | .arr ks => ks.filterMap fun k => match k with | .str s => some s | _ => none
        | _ => [])
  | _ => []

/-- `process_invoices` (source lines 151–182), at the level of the claims:
load the category table first; if loading raises, the exception propagates
and no document is classified; otherwise classify and filter every
document into a record. -/
def process_invoices (source : Option JVal) (docs : List (String × String)) :
    Except LoadError (List Record) :=
  match load_categories source with
  | .error e => .error e
  | .ok j => .ok (docs.map fun d => assembleRecord d.1 d.2 (decodeTable j))

/-!  ## Character-level lemmas -/

theorem char_eq_of_toNat_eq {a b : Char} (h : a.toNat = b.toNat) : a = b :=
  Char.ext (UInt32.ext h)

theorem char_beq_eq_decide (a b : Char) : (a == b) = decide (a.toNat = b.toNat) := by
  by_cases h : a = b
  · subst h; simp
  · have hn : a.toNat ≠ b.toNat := fun hc => h (char_eq_of_toNat_eq hc)
    simp [h, hn]

theorem toNat_ofNat_valid (n : Nat) (hv : n.isValidChar) : (Char.ofNat n).toNat = n := by
  simp [Char.ofNat, hv, Char.ofNatAux, Char.toNat, UInt32.toNat, BitVec.toNat_ofNatLt]

theorem toNat_toLower (c : Char) :
    (Char.toLower c).toNat = if 65 ≤ c.toNat ∧ c.toNat ≤ 90 then c.toNat + 32 else c.toNat := by
  simp only [Char.toLower, ge_iff_le]
  split
  · next h =>
    have hv : (c.toNat + 32).isValidChar := Or.inl (by omega)
    exact toNat_ofNat_valid _ hv
  · rfl

theorem digitChar_toLower (c : Char) : digitChar (Char.toLower c) = digitChar c := by
  simp only [digitChar, toNat_toLower]
  split
  · next h =>
    have h1 : ¬ (c.toNat + 32 ≤ 57) := by omega
    have h2 : ¬ (c.toNat ≤ 57) := by omega
    simp [h1, h2]
  · rfl

theorem dash_toLower (c : Char) : (Char.toLower c == '-') = (c == '-') := by
  rw [char_beq_eq_decide, char_beq_eq_decide, toNat_toLower]
  split
  · next h =>
    have h45 : ('-').toNat = 45 := by decide
    rw [h45, decide_eq_decide]
    omega
  · rfl

theorem not_digit_of_ws {c : Char} (h : wsChar c = true) : digitChar c = false := by
  simp only [wsChar, Bool.or_eq_true, beq_iff_eq] at h
  simp [digitChar]
  omega

theorem not_ws_of_digit {c : Char} (h : digitChar c = true) : wsChar c = false := by
  simp only [digitChar, Bool.and_eq_true, decide_eq_true_eq] at h
  simp [wsChar]
  omega

theorem not_ws_of_dash {c : Char} (h : (c == '-') = true) : wsChar c = false := by
  have hc : c = '-' := by simpa using h
  subst hc
  decide



/-!  ## Substring-search lemmas -/

theorem startsWithL_iff (tok l : List Char) :
    startsWithL tok l = true ↔ ∃ r, l = tok ++ r := by
  induction tok generalizing l with
  | nil => simp [startsWithL, dropPrefixL]
  | cons a as ih =>
    cases l with
    | nil => simp [startsWithL, dropPrefixL]
    | cons b bs =>
      simp only [startsWithL, dropPrefixL, List.cons_append, List.cons.injEq]
      by_cases hab : a = b
      · subst hab
        simp only [beq_self_eq_true, if_true, true_and]
        simpa [startsWithL] using ih bs
      · have hf : (a == b) = false := beq_eq_false_iff_ne.mpr hab
        have hba : ¬ b = a := fun h => hab h.symm
        simp [hf, hba]

theorem searchAt_iff (p : List Char → Bool) (l : List Char) :
    searchAt p l = true ↔ ∃ a b, l = a ++ b ∧ p b = true := by
  induction l with
  | nil =>
    constructor
    · intro h; exact ⟨[], [], rfl, h⟩
    · rintro ⟨a, b, hab, hb⟩
      obtain ⟨ha, hb'⟩ := List.append_eq_nil.mp hab.symm
      subst hb'
      exact hb
  | cons c t ih =>
    constructor
    · intro h
      rcases Bool.or_eq_true _ _ |>.mp h with h' | h'
      · exact ⟨[], c :: t, rfl, h'⟩
      · obtain ⟨a, b, hab, hb⟩ := ih.mp h'
        exact ⟨c :: a, b, by simp [hab], hb⟩
    · rintro ⟨a, b, hab, hb⟩
      cases a with
      | nil =>
        simp only [List.nil_append] at hab
        subst hab
        exact Bool.or_eq_true _ _ |>.mpr (Or.inl hb)
      | cons a' as =>
        simp only [List.cons_append, List.cons.injEq] at hab
        obtain ⟨rfl, ht⟩ := hab
        exact Bool.or_eq_true _ _ |>.mpr (Or.inr (ih.mpr ⟨as, b, ht, hb⟩))

theorem containsSub_iff (tok l : List Char) :
    containsSub tok l = true ↔ ∃ a r, l = a ++ tok ++ r := by
  unfold containsSub
  rw [searchAt_iff]
  constructor
  · rintro ⟨a, b, rfl, hb⟩
    obtain ⟨r, rfl⟩ := (startsWithL_iff tok b).mp hb
    exact ⟨a, r, (List.append_assoc a tok r).symm⟩
  · rintro ⟨a, r, rfl⟩
    exact ⟨a, tok ++ r, List.append_assoc a tok r, (startsWithL_iff tok _).mpr ⟨r, rfl⟩⟩

theorem containsSub_nil (l : List Char) : containsSub [] l = true := by
  cases l <;> simp [containsSub, searchAt, startsWithL, dropPrefixL]

/-!  ## Stripping preserves non-whitespace tokens -/

theorem dropWhile_decomp {tok : List Char} (hne : tok ≠ [])
    (hnw : ∀ c ∈ tok, wsChar c = false) (a r : List Char) :
    ∃ a', (a ++ tok ++ r).dropWhile wsChar = a' ++ tok ++ r := by
  induction a with
  | nil =>
    cases tok with
    | nil => exact absurd rfl hne
    | cons c t =>
      have hc : wsChar c = false := hnw c (by simp)
      refine ⟨[], ?_⟩
      simp [List.dropWhile_cons, hc]
  | cons x xs ih =>
    by_cases hx : wsChar x = true
    · obtain ⟨a', ha'⟩ := ih
      refine ⟨a', ?_⟩
      simpa [List.dropWhile_cons, hx] using ha'
    · rw [Bool.not_eq_true] at hx
      refine ⟨x :: xs, ?_⟩
      simp [List.dropWhile_cons, hx]

theorem pyStrip_decomp {tok : List Char} (hne : tok ≠ [])
    (hnw : ∀ c ∈ tok, wsChar c = false) (a r : List Char) :
    ∃ a' r', pyStrip (a ++ tok ++ r) = a' ++ tok ++ r' := by
  obtain ⟨a₁, h1⟩ := dropWhile_decomp hne hnw a r
  have hne' : tok.reverse ≠ [] := by simpa using hne
  have hnw' : ∀ c ∈ tok.reverse, wsChar c = false := fun c hc =>
    hnw c (List.mem_reverse.mp hc)
  obtain ⟨a₂, h2⟩ := dropWhile_decomp hne' hnw' r.reverse (a₁.reverse)
  refine ⟨a₁, a₂.reverse, ?_⟩
  unfold pyStrip
  rw [h1]
  have hrev : (a₁ ++ tok ++ r).reverse = r.reverse ++ tok.reverse ++ a₁.reverse := by
    simp [List.reverse_append, List.append_assoc]
  rw [hrev, h2]
  simp [List.reverse_append, List.append_assoc]

/-!  ## The ISO-date pattern as a token occurrence -/

theorem isoAt_iff (l : List Char) :
    isoAt l = true ↔ ∃ t r, l = t ++ r ∧ isoTok t = true := by
  constructor
  · intro h
    rcases l with _ | ⟨a, _ | ⟨b, _ | ⟨c, _ | ⟨d, _ | ⟨e, _ | ⟨f, _ | ⟨g, _ | ⟨h', _ | ⟨i, _ | ⟨j, rest⟩⟩⟩⟩⟩⟩⟩⟩⟩⟩
    case cons.cons.cons.cons.cons.cons.cons.cons.cons.cons =>
      exact ⟨[a, b, c, d, e, f, g, h', i, j], rest, by simp, by simpa [isoTok, isoAt] using h⟩
    all_goals exact absurd h (by simp [isoAt])
  · rintro ⟨t, r, rfl, ht⟩
    rcases t with _ | ⟨a, _ | ⟨b, _ | ⟨c, _ | ⟨d, _ | ⟨e, _ | ⟨f, _ | ⟨g, _ | ⟨h', _ | ⟨i, _ | ⟨j, rest⟩⟩⟩⟩⟩⟩⟩⟩⟩⟩
    case cons.cons.cons.cons.cons.cons.cons.cons.cons.cons =>
      cases rest with
      | nil => simpa [isoAt, isoTok] using ht
      | cons x xs => exact absurd ht (by simp [isoTok])
    all_goals exact absurd ht (by simp [isoTok])

theorem containsIsoDate_iff (l : List Char) :
    containsIsoDate l = true ↔ ∃ a t r, l = a ++ t ++ r ∧ isoTok t = true := by
  unfold containsIsoDate
  rw [searchAt_iff]
  constructor
  · rintro ⟨a, b, rfl, hb⟩
    obtain ⟨t, r, rfl, ht⟩ := (isoAt_iff b).mp hb
    exact ⟨a, t, r, by simp [List.append_assoc], ht⟩
  · rintro ⟨a, t, r, rfl, ht⟩
    exact ⟨a, t ++ r, by simp [List.append_assoc], (isoAt_iff _).mpr ⟨t, r, rfl, ht⟩⟩

theorem isoTok_ne_nil {t : List Char} (ht : isoTok t = true) : t ≠ [] := by
  intro h
  subst h
  simp [isoTok] at ht

theorem isoTok_nonws {t : List Char} (ht : isoTok t = true) :
    ∀ c ∈ t, wsChar c = false := by
  rcases t with _ | ⟨a, _ | ⟨b, _ | ⟨c', _ | ⟨d, _ | ⟨e, _ | ⟨f, _ | ⟨g, _ | ⟨h', _ | ⟨i, _ | ⟨j, rest⟩⟩⟩⟩⟩⟩⟩⟩⟩⟩
  case cons.cons.cons.cons.cons.cons.cons.cons.cons.cons =>
    cases rest with
    | cons x xs => exact absurd ht (by simp [isoTok])
    | nil =>
      simp only [isoTok, Bool.and_eq_true, beq_iff_eq, and_assoc] at ht
      obtain ⟨h1, h2, h3, h4, h5, h6, h7, h8, h9, h10⟩ := ht
      intro x hx
      simp only [List.mem_cons, List.not_mem_nil, or_false] at hx
      rcases hx with rfl | rfl | rfl | rfl | rfl | rfl | rfl | rfl | rfl | rfl
      · exact not_ws_of_digit h1
      · exact not_ws_of_digit h2
      · exact not_ws_of_digit h3
      · exact not_ws_of_digit h4
      · subst h5; decide
      · exact not_ws_of_digit h6
      · exact not_ws_of_digit h7
      · subst h8; decide
      · exact not_ws_of_digit h9
      · exact not_ws_of_digit h10
  all_goals exact absurd ht (by simp [isoTok])

theorem isoTok_pyLower (t : List Char) : isoTok (pyLower t) = isoTok t := by
  rcases t with _ | ⟨a, _ | ⟨b, _ | ⟨c', _ | ⟨d, _ | ⟨e, _ | ⟨f, _ | ⟨g, _ | ⟨h', _ | ⟨i, _ | ⟨j, rest⟩⟩⟩⟩⟩⟩⟩⟩⟩⟩
  case cons.cons.cons.cons.cons.cons.cons.cons.cons.cons =>
    cases rest with
    | nil => simp [pyLower, isoTok, digitChar_toLower, dash_toLower]
    | cons x xs => simp [pyLower, isoTok]
  all_goals simp [pyLower, isoTok]

/-!  ## Bridges from a raw line to the processed (lowercased, stripped) line -/

theorem containsSub_pyStrip {tok l : List Char} (hne : tok ≠ [])
    (hnw : ∀ c ∈ tok, wsChar c = false) (h : containsSub tok l = true) :
    containsSub tok (pyStrip l) = true := by
  obtain ⟨a, r, rfl⟩ := (containsSub_iff tok l).mp h
  obtain ⟨a', r', hs⟩ := pyStrip_decomp hne hnw a r
  rw [hs]
  exact (containsSub_iff _ _).mpr ⟨a', r', rfl⟩

theorem containsIsoDate_strip_lower {line : List Char}
    (h : containsIsoDate line = true) :
    containsIsoDate (pyStrip (pyLower line)) = true := by
  obtain ⟨a, t, r, rfl, ht⟩ := (containsIsoDate_iff line).mp h
  have hmap : pyLower (a ++ t ++ r) = pyLower a ++ pyLower t ++ pyLower r := by
    simp [pyLower]
  have ht' : isoTok (pyLower t) = true := by rw [isoTok_pyLower]; exact ht
  obtain ⟨a', r', hs⟩ :=
    pyStrip_decomp (isoTok_ne_nil ht') (isoTok_nonws ht') (pyLower a) (pyLower r)
  rw [hmap, hs]
  exact (containsIsoDate_iff _).mpr ⟨a', pyLower t, r', rfl, ht'⟩

/-!  ## The per-line filter -/

theorem retainLine_eq_none_of_skip {line : List Char}
    (h : shouldSkip (pyStrip (pyLower line)) = true) : retainLine line = none := by
  unfold retainLine
  by_cases he : (pyStrip (pyLower line)).isEmpty
  · simp [he]
  · simp [he, h]

/-!  ## Classifier lemmas -/

theorem firstMatchingKeyword_isSome (text : List Char) (kws : List String) :
    (firstMatchingKeyword text kws).isSome
      = kws.any fun kw => containsSub (pyLower kw.data) text := by
  induction kws with
  | nil => rfl
  | cons kw rest ih =>
    simp only [firstMatchingKeyword, List.any_cons]
    by_cases h : containsSub (pyLower kw.data) text = true
    · simp [h]
    · rw [Bool.not_eq_true] at h
      simp [h, ih]

theorem matchedCategories_eq (text : List Char) (cats : CategoryTable) :
    matchedCategories text cats = (cats.filter (catMatches text)).map Prod.fst := by
  induction cats with
  | nil => rfl
  | cons ck rest ih =>
    obtain ⟨name, kws⟩ := ck
    have hcm : catMatches text (name, kws) = (firstMatchingKeyword text kws).isSome :=
      (firstMatchingKeyword_isSome text kws).symm
    simp only [matchedCategories]
    cases hf : firstMatchingKeyword text kws with
    | some kw =>
      rw [hf] at hcm
      simp [List.filter_cons, hcm, ih]
    | none =>
      rw [hf] at hcm
      simp [List.filter_cons, hcm, ih]

theorem mem_categorize_of_match {text : String} {cats : CategoryTable}
    {c : String} {kws : List String} (hmem : (c, kws) ∈ cats)
    (hmatch : kws.any (fun kw => containsSub (pyLower kw.data) text.data) = true) :
    c ∈ categorize_invoice text cats := by
  have hc : c ∈ matchedCategories text.data cats := by
    rw [matchedCategories_eq]
    exact List.mem_map.mpr ⟨(c, kws), List.mem_filter.mpr ⟨hmem, hmatch⟩, rfl⟩
  have hne : matchedCategories text.data cats ≠ [] := by
    intro h0
    rw [h0] at hc
    exact absurd hc (List.not_mem_nil c)
  unfold categorize_invoice
  show c ∈ if (matchedCategories text.data cats).isEmpty = true then ["Uncategorized"]
    else matchedCategories text.data cats
  rw [show (matchedCategories text.data cats).isEmpty = false from
    List.isEmpty_eq_false.mpr hne]
  simpa using hc

theorem categorize_ne_nil (text : String) (cats : CategoryTable) :
    categorize_invoice text cats ≠ [] := by
  unfold categorize_invoice
  show (if (matchedCategories text.data cats).isEmpty = true then ["Uncategorized"]
    else matchedCategories text.data cats) ≠ []
  split
  · simp
  · next h =>
    rw [Bool.not_eq_true, List.isEmpty_eq_false] at h
    exact h

theorem firstMatchingKeyword_none (text : List Char) (kws : List String)
    (h : kws.all (fun kw => !containsSub (pyLower kw.data) text) = true) :
    firstMatchingKeyword text kws = none := by
  induction kws with
  | nil => rfl
  | cons kw rest ih =>
    simp only [List.all_cons, Bool.and_eq_true, Bool.not_eq_true'] at h
    simpa [firstMatchingKeyword, h.1] using ih h.2

theorem matchedCategories_nil_of_no_match (text : List Char) (cats : CategoryTable)
    (h : (cats.all fun ck => ck.2.all fun kw =>
        !containsSub (pyLower kw.data) text) = true) :
    matchedCategories text cats = [] := by
  induction cats with
  | nil => rfl
  | cons ck rest ih =>
    obtain ⟨name, kws⟩ := ck
    simp only [List.all_cons, Bool.and_eq_true] at h
    simp only [matchedCategories, firstMatchingKeyword_none text kws h.1]
    exact ih h.2

theorem categorize_eq_matched {text : String} {cats : CategoryTable}
    (hne : matchedCategories text.data cats ≠ []) :
    categorize_invoice text cats = matchedCategories text.data cats := by
  unfold categorize_invoice
  show (if (matchedCategories text.data cats).isEmpty = true then ["Uncategorized"]
    else matchedCategories text.data cats) = matchedCategories text.data cats
  rw [List.isEmpty_eq_false.mpr hne]
  simp

/-!  ## The claims -/

/-- C1, counterexample: classification is NOT case-insensitive with respect
to the document text.  `categorize_invoice` lowercases only the keyword
(`keyword.lower() in text`), so the uppercase text `"INVOICE FROM ACME"`
does not match a category whose keyword list contains `"acme"`; the result
is `["Uncategorized"]` and the category is absent. -/
theorem claim1_counterexample :
    categorize_invoice "INVOICE FROM ACME" [("Vendor", ["acme"])] = ["Uncategorized"]
      ∧ "Vendor" ∉ categorize_invoice "INVOICE FROM ACME" [("Vendor", ["acme"])] := by
  decide

/-- C1, amended: classification is case-insensitive with respect to the
KEYWORD's letter case only — every keyword is lowercased before the
substring test, so a category matches whenever any of its keywords,
lowercased, occurs in the text as given (the pipeline supplies the text
already lowercased). -/
theorem claim1_keyword_case_insensitive (text : String) (cats : CategoryTable)
    (c : String) (kws : List String) (kw : String) (hmem : (c, kws) ∈ cats)
    (hkw : kw ∈ kws) (hocc : containsSub (pyLower kw.data) text.data = true) :
    c ∈ categorize_invoice text cats :=
  mem_categorize_of_match hmem (List.any_eq_true.mpr ⟨kw, hkw, hocc⟩)

/-- C1, witness: the lowercase text `"invoice from acme"` matches the
uppercase keyword `"ACME"`. -/
theorem claim1_keyword_case_insensitive_witness :
    "Vendor" ∈ categorize_invoice "invoice from acme" [("Vendor", ["ACME"])] :=
  claim1_keyword_case_insensitive "invoice from acme" [("Vendor", ["ACME"])]
    "Vendor" ["ACME"] "ACME" (by decide) (by decide) (by decide)

/-- C2: the classification result is never empty, and when no keyword of
any configured category occurs in the text (lowered keyword against the
text), `categorize_invoice` returns exactly `["Uncategorized"]`. -/
theorem claim2_no_match_uncategorized (text : String) (cats : CategoryTable) :
    categorize_invoice text cats ≠ []
      ∧ ((cats.all fun ck => ck.2.all fun kw =>
            !containsSub (pyLower kw.data) text.data) = true →
          categorize_invoice text cats = ["Uncategorized"]) := by
  refine ⟨categorize_ne_nil text cats, fun h => ?_⟩
  have h0 : matchedCategories text.data cats = [] :=
    matchedCategories_nil_of_no_match text.data cats h
  simp [categorize_invoice, h0]

/-- C2, witness: a text containing no configured keyword is classified
exactly `["Uncategorized"]`, and the result is nonempty. -/
theorem claim2_witness :
    categorize_invoice "qq zz" [("Food", ["pizza"])] ≠ []
      ∧ categorize_invoice "qq zz" [("Food", ["pizza"])] = ["Uncategorized"] :=
  ⟨(claim2_no_match_uncategorized "qq zz" [("Food", ["pizza"])]).1,
   (claim2_no_match_uncategorized "qq zz" [("Food", ["pizza"])]).2 (by decide)⟩

/-- C3: when two or more categories match, the result is exactly the names
of the matching categories in table order (hence each name at most once,
given distinct table keys), and the keyword scan of a category stops at its
first matching keyword while later categories are still scanned. -/
theorem claim3_multi_category_order (text : String) (cats : CategoryTable)
    (kw : String) (rest : List String)
    (hnd : (cats.map Prod.fst).Nodup)
    (h2 : 2 ≤ (cats.filter (catMatches text.data)).length)
    (hkw : containsSub (pyLower kw.data) text.data = true) :
    categorize_invoice text cats = (cats.filter (catMatches text.data)).map Prod.fst
      ∧ (categorize_invoice text cats).Nodup
      ∧ firstMatchingKeyword text.data (kw :: rest) = some kw := by
  have heq : matchedCategories text.data cats
      = (cats.filter (catMatches text.data)).map Prod.fst := matchedCategories_eq _ _
  have hne : matchedCategories text.data cats ≠ [] := by
    rw [heq]
    intro h0
    have hlen := congrArg List.length h0
    simp only [List.length_map, List.length_nil] at hlen
    omega
  have hcat := categorize_eq_matched hne
  refine ⟨hcat.trans heq, ?_, ?_⟩
  · rw [hcat, heq]
    exact List.Nodup.sublist (List.Sublist.map Prod.fst (List.filter_sublist cats)) hnd
  · simp [firstMatchingKeyword, hkw]

/-- C3, witness: a document matching two categories yields both names in
table order, without duplicates, and the inner scan short-circuits. -/
theorem claim3_witness :
    categorize_invoice "pizza and acme"
        [("Food", ["pizza", "pasta"]), ("Vendor", ["acme"])]
      = (([("Food", ["pizza", "pasta"]), ("Vendor", ["acme"])] : CategoryTable).filter
          (catMatches "pizza and acme".data)).map Prod.fst
      ∧ (categorize_invoice "pizza and acme"
          [("Food", ["pizza", "pasta"]), ("Vendor", ["acme"])]).Nodup
      ∧ firstMatchingKeyword "pizza and acme".data ("pizza" :: ["pasta"]) = some "pizza" :=
  claim3_multi_category_order "pizza and acme"
    [("Food", ["pizza", "pasta"]), ("Vendor", ["acme"])] "pizza" ["pasta"]
    (by decide) (by decide) (by decide)

/-- C4, counterexample: loading a structurally invalid category table does
NOT raise — `load_categories` returns whatever `json.load` parsed, with no
validation: an empty table is accepted, and so is a table mapping a
category to a non-list. -/
theorem claim4_counterexample :
    load_categories (some (JVal.obj [])) ≠ Except.error LoadError.loadFailure
      ∧ load_categories (some (JVal.obj [])) = Except.ok (JVal.obj [])
      ∧ load_categories (some (JVal.obj [("Food", JVal.str "pizza")]))
          = Except.ok (JVal.obj [("Food", JVal.str "pizza")]) :=
  ⟨fun h => Except.noConfusion h, rfl, rfl⟩

/-- C4, amended: when the table source is missing or unparseable the load
fails (the underlying exception propagates — the code defines no
`ConfigError`) and the pipeline classifies no document; but a structurally
invalid parsed table (empty, or a category mapped to a non-list) is
accepted at load time without any error. -/
theorem claim4_load_failure_stops_pipeline (docs : List (String × String)) :
    process_invoices none docs = Except.error LoadError.loadFailure
      ∧ load_categories (some (JVal.obj [])) = Except.ok (JVal.obj [])
      ∧ load_categories (some (JVal.obj [("Food", JVal.str "pizza")]))
          = Except.ok (JVal.obj [("Food", JVal.str "pizza")]) :=
  ⟨rfl, rfl, rfl⟩

/-- C5: `filter_description` on the three-line example removes the
`Invoice No` and `Tax ID` boilerplate lines and returns the middle line
trimmed, in its original case. -/
theorem claim5_filter_example :
    filter_description "Invoice No: 12345\nWidget Repair Service\nTax ID: 99-1234567\n"
      = "Widget Repair Service" := by
  decide

/-- C6: a line containing an ISO-style `YYYY-MM-DD` date token anywhere is
dropped whole by the per-line step of `filter_description` (it contributes
nothing to the output; the token is not partially removed). -/
theorem claim6_iso_date_line_dropped (line : List Char)
    (h : containsIsoDate line = true) : retainLine line = none := by
  apply retainLine_eq_none_of_skip
  have h' : containsIsoDate (pyStrip (pyLower line)) = true :=
    containsIsoDate_strip_lower h
  simp [shouldSkip, skipPatterns, h']

/-- C6, witness: the example line `"Due 2024-03-15 for services"` contains
an ISO date token and is dropped entirely. -/
theorem claim6_witness :
    containsIsoDate "Due 2024-03-15 for services".data = true
      ∧ retainLine "Due 2024-03-15 for services".data = none :=
  ⟨by decide, claim6_iso_date_line_dropped "Due 2024-03-15 for services".data (by decide)⟩

/-- C7: any line whose lowercased form contains the substring `"date"` —
also inside unrelated words such as `"Update"` — is dropped whole by the
per-line step of `filter_description`. -/
theorem claim7_date_substring_line_dropped (line : List Char)
    (h : containsSub "date".data (pyLower line) = true) : retainLine line = none := by
  apply retainLine_eq_none_of_skip
  have h' : containsSub "date".data (pyStrip (pyLower line)) = true :=
    containsSub_pyStrip (by decide) (by decide) h
  simp [shouldSkip, skipPatterns, h']

/-- C7, witness: `"Software Update v2"` contains `"date"` only inside
`"Update"` and is nevertheless dropped. -/
theorem claim7_witness :
    containsSub "date".data (pyLower "Software Update v2".data) = true
      ∧ retainLine "Software Update v2".data = none :=
  ⟨by decide, claim7_date_substring_line_dropped "Software Update v2".data (by decide)⟩

/-- C8: `filter_description` is a total function on strings by
construction; `filter_description "" = ""`, and whenever every line of the
input is dropped (a string consisting only of boilerplate lines), the
output is the empty string. -/
theorem claim8_filter_total_empty (s : String)
    (h : (splitLines s.data).all (fun l => (retainLine l).isNone) = true) :
    filter_description s = "" ∧ filter_description "" = "" := by
  constructor
  · unfold filter_description
    have h0 : (splitLines s.data).filterMap retainLine = [] := by
      rw [List.filterMap_eq_nil_iff]
      intro a ha
      exact Option.isNone_iff_eq_none.mp (List.all_eq_true.mp h a ha)
    rw [h0]
    rfl
  · rfl

/-- C8, witness: a document consisting only of boilerplate lines filters
to the empty string, and so does the empty document. -/
theorem claim8_witness :
    filter_description "Invoice No: 7\nDate: 2024-01-02\n\n" = ""
      ∧ filter_description "" = "" :=
  claim8_filter_total_empty "Invoice No: 7\nDate: 2024-01-02\n\n" (by decide)

/-- C9: classification and record assembly are deterministic pure
functions — identical inputs yield identical ordered category lists and
identical assembled records. -/
theorem claim9_deterministic (fn t : String) (tab : CategoryTable)
    (fn' t' : String) (tab' : CategoryTable)
    (h1 : fn = fn') (h2 : t = t') (h3 : tab = tab') :
    categorize_invoice t tab = categorize_invoice t' tab'
      ∧ assembleRecord fn t tab = assembleRecord fn' t' tab' := by
  subst h1
  subst h2
  subst h3
  exact ⟨rfl, rfl⟩

/-- C9, witness: determinism at a concrete document and table. -/
theorem claim9_witness :
    categorize_invoice "pizza" [("Food", ["pizza"])]
        = categorize_invoice "pizza" [("Food", ["pizza"])]
      ∧ assembleRecord "a.jpg" "pizza" [("Food", ["pizza"])]
          = assembleRecord "a.jpg" "pizza" [("Food", ["pizza"])] :=
  claim9_deterministic "a.jpg" "pizza" [("Food", ["pizza"])]
    "a.jpg" "pizza" [("Food", ["pizza"])] rfl rfl rfl

/-- C10: a category whose keyword list contains the empty string matches
every text — the empty keyword is a substring of every string, the empty
text included. -/
theorem claim10_empty_keyword_always_matches (text : String) (cats : CategoryTable)
    (c : String) (kws : List String) (hmem : (c, kws) ∈ cats) (hkw : "" ∈ kws) :
    c ∈ categorize_invoice text cats :=
  mem_categorize_of_match hmem
    (List.any_eq_true.mpr ⟨"", hkw, containsSub_nil text.data⟩)

/-- C10, witness: with table `{"A": [""]}` even the empty text is
classified `A`. -/
theorem claim10_witness :
    "A" ∈ categorize_invoice "" [("A", [""])] :=
  claim10_empty_keyword_always_matches "" [("A", [""])] "A" [""]
    (by decide) (by decide)
